import Mathlib

/-!
Verification development for the Kontempo merchant-assistant service
(`kontempo_ai_langchain.py`).

The deterministic core of the service is embedded shallowly:

* `PyVal` models the dynamically typed JSON-like values the service
  receives (numbers as exact rationals, strings, lists, string-keyed
  dictionaries).
* Operations that can raise in Python (`.get` on a non-dict, `d[k]` with a
  missing key, iteration over a number, `.upper()` on a non-string,
  adding a non-number, hashing a list/dict) are embedded as
  `Except String` computations; the error strings stand in for the
  Python exception messages.
* `summarize_merchant_data` embeds the function of the same name
  (source lines 73-123): the `try`-body is `trySummarize`, the
  `except` branch produces the diagnostic string of line 123.
* `process_input` embeds the function of the same name (lines 146-170),
  including the conversation-history windowing loop of lines 153-159.

Numeric display (`f"{x:,.2f}"`) is idealised over exact rationals with
banker's rounding to two decimals and comma thousands grouping; the
Python original formats a binary float, which agrees on the values the
theorems below evaluate.
-/

/-- Dynamically typed values handled by the service: numbers, strings,
lists and string-keyed dictionaries (the shapes occurring in the
service's JSON payloads). -/
inductive PyVal where
  | num (q : ℚ)
  | str (s : String)
  | list (xs : List PyVal)
  | dict (kvs : List (String × PyVal))

mutual
/-- Decidable equality on `PyVal` (Python `==` on these shapes, except
that Python additionally equates numerically equal numbers across
int/float, which a single `ℚ` constructor already provides). -/
def PyVal.decEq : (a b : PyVal) → Decidable (a = b)
  | .num a, .num b =>
    if h : a = b then isTrue (by rw [h])
    else isFalse (by intro hh; injection hh; contradiction)
  | .num _, .str _ => isFalse (fun h => nomatch h)
  | .num _, .list _ => isFalse (fun h => nomatch h)
  | .num _, .dict _ => isFalse (fun h => nomatch h)
  | .str _, .num _ => isFalse (fun h => nomatch h)
  | .str a, .str b =>
    if h : a = b then isTrue (by rw [h])
    else isFalse (by intro hh; injection hh; contradiction)
  | .str _, .list _ => isFalse (fun h => nomatch h)
  | .str _, .dict _ => isFalse (fun h => nomatch h)
  | .list _, .num _ => isFalse (fun h => nomatch h)
  | .list _, .str _ => isFalse (fun h => nomatch h)
  | .list a, .list b =>
    match PyVal.decEqList a b with
    | isTrue h => isTrue (by rw [h])
    | isFalse h => isFalse (by intro hh; injection hh; contradiction)
  | .list _, .dict _ => isFalse (fun h => nomatch h)
  | .dict _, .num _ => isFalse (fun h => nomatch h)
  | .dict _, .str _ => isFalse (fun h => nomatch h)
  | .dict _, .list _ => isFalse (fun h => nomatch h)
  | .dict a, .dict b =>
    match PyVal.decEqKVs a b with
    | isTrue h => isTrue (by rw [h])
    | isFalse h => isFalse (by intro hh; injection hh; contradiction)

/-- Decidable equality on lists of `PyVal`. -/
def PyVal.decEqList : (a b : List PyVal) → Decidable (a = b)
  | [], [] => isTrue rfl
  | [], _ :: _ => isFalse (fun h => nomatch h)
  | _ :: _, [] => isFalse (fun h => nomatch h)
  | x :: xs, y :: ys =>
    match PyVal.decEq x y with
    | isFalse h => isFalse (by intro hh; injection hh; contradiction)
    | isTrue h1 =>
      match PyVal.decEqList xs ys with
      | isTrue h2 => isTrue (by rw [h1, h2])
      | isFalse h => isFalse (by intro hh; injection hh; contradiction)

/-- Decidable equality on key-value lists of `PyVal`. -/
def PyVal.decEqKVs : (a b : List (String × PyVal)) → Decidable (a = b)
  | [], [] => isTrue rfl
  | [], _ :: _ => isFalse (fun h => nomatch h)
  | _ :: _, [] => isFalse (fun h => nomatch h)
  | (k1, v1) :: xs, (k2, v2) :: ys =>
    if hk : k1 = k2 then
      match PyVal.decEq v1 v2 with
      | isFalse h => isFalse (by intro hh; injection hh with hh1 hh2; exact h (congrArg Prod.snd hh1))
      | isTrue hv =>
        match PyVal.decEqKVs xs ys with
        | isTrue h2 => isTrue (by rw [hk, hv, h2])
        | isFalse h => isFalse (by intro hh; injection hh; contradiction)
    else isFalse (by intro hh; injection hh with hh1 hh2; exact hk (congrArg Prod.fst hh1))
end

instance : DecidableEq PyVal := PyVal.decEq

/-- First-match lookup in a dictionary's key-value list. -/
def lookupKV : List (String × PyVal) → String → Option PyVal
  | [], _ => none
  | (k2, v) :: rest, k => if k2 = k then some v else lookupKV rest k

/-- Python `v.get(k, d)`: defaulting lookup; raises (`AttributeError`)
when `v` is not a dict. -/
def pyGetD (v : PyVal) (k : String) (d : PyVal) : Except String PyVal :=
  match v with
  | .dict kvs => .ok ((lookupKV kvs k).getD d)
  | _ => .error "AttributeError: get"

/-- Python `v[k]` for a string key: raises `KeyError` when the key is
missing and `TypeError` when `v` is not a dict. -/
def pySubscript (v : PyVal) (k : String) : Except String PyVal :=
  match v with
  | .dict kvs =>
    match lookupKV kvs k with
    | some x => .ok x
    | none => .error ("KeyError: " ++ k)
  | _ => .error "TypeError: not subscriptable"

/-- Python iteration `for x in v`: lists yield elements, strings yield
one-character strings, dicts yield their keys, numbers raise. -/
def pyIterate : PyVal → Except String (List PyVal)
  | .list xs => .ok xs
  | .str s => .ok (s.data.map (fun c => PyVal.str (String.singleton c)))
  | .dict kvs => .ok (kvs.map (fun p => PyVal.str p.1))
  | .num _ => .error "TypeError: not iterable"

/-- Python `v[:-1]`: drop the final element; raises on non-sliceable
values (numbers, dicts). -/
def pySlicePre : PyVal → Except String (List PyVal)
  | .list xs => .ok xs.dropLast
  | .str s => .ok ((s.data.dropLast).map (fun c => PyVal.str (String.singleton c)))
  | _ => .error "TypeError: unsliceable"

/-- Python `len(v)`: raises on numbers. -/
def pyLen : PyVal → Except String Nat
  | .list xs => .ok xs.length
  | .str s => .ok s.length
  | .dict kvs => .ok kvs.length
  | .num _ => .error "TypeError: no len"

/-- Python `v.upper()`: only strings have the attribute. -/
def pyUpper : PyVal → Except String String
  | .str s => .ok s.toUpper
  | _ => .error "AttributeError: upper"

/-- Numeric coercion for `0 + v` inside `sum(...)`: raises `TypeError`
for non-numbers. -/
def pyNum : PyVal → Except String ℚ
  | .num q => .ok q
  | _ => .error "TypeError: unsupported operand"

/-- Python hashing of a dict key (`status not in status_groups`):
lists and dicts are unhashable. -/
def checkHashable : PyVal → Except String Unit
  | .list _ => .error "TypeError: unhashable type: list"
  | .dict _ => .error "TypeError: unhashable type: dict"
  | _ => .ok ()

/-- The single-quote character used by Python `repr` of strings. -/
def quoteChar : String := String.singleton (Char.ofNat 39)

mutual
/-- Python `repr` of a value (used by `str` on containers). -/
def pyRepr : PyVal → String
  | .str s => quoteChar ++ s ++ quoteChar
  | .num q => toString q
  | .list xs => "[" ++ pyReprJoin xs ++ "]"
  | .dict kvs => "\x7b" ++ pyReprKVJoin kvs ++ "\x7d"
/-- Comma-joined `repr` of list elements. -/
def pyReprJoin : List PyVal → String
  | [] => ""
  | [x] => pyRepr x
  | x :: y :: rest => pyRepr x ++ ", " ++ pyReprJoin (y :: rest)
/-- Comma-joined `repr` of dict entries. -/
def pyReprKVJoin : List (String × PyVal) → String
  | [] => ""
  | [(k, v)] => quoteChar ++ k ++ quoteChar ++ ": " ++ pyRepr v
  | (k, v) :: e :: rest =>
    quoteChar ++ k ++ quoteChar ++ ": " ++ pyRepr v ++ ", " ++ pyReprKVJoin (e :: rest)
end

/-- Python `str(v)` as used by f-string interpolation. -/
def pyStr : PyVal → String
  | .str s => s
  | v => pyRepr v

/-- Round a rational to the nearest integer, ties to even
(Python's float-to-string rounding mode). -/
def roundHalfEven (q : ℚ) : ℤ :=
  let f : ℤ := q.floor
  let r : ℚ := q - (f : ℚ)
  if r < 1/2 then f
  else if 1/2 < r then f + 1
  else if f % 2 = 0 then f else f + 1

/-- Insert comma thousands separators from the right into a digit
string. -/
def commaChunks : List Char → List Char
  | a :: b :: c :: d :: rest => a :: b :: c :: ',' :: commaChunks (d :: rest)
  | l => l

/-- Group the digits of a number string in threes with commas. -/
def insertCommas (s : String) : String :=
  String.mk ((commaChunks s.data.reverse).reverse)

/-- Zero-padded two-digit rendering of a fractional part. -/
def twoDigits (n : Nat) : String :=
  if n < 10 then "0" ++ toString n else toString n

/-- The Python format `f"{q:,.2f}"`: two decimals, banker's rounding,
comma thousands separators. -/
def formatMoney (q : ℚ) : String :=
  let n := roundHalfEven (q * 100)
  let m := n.natAbs
  (if n < 0 then "-" else "") ++ insertCommas (toString (m / 100)) ++ "." ++ twoDigits (m % 100)

/-- The per-buyer display record built by the grouping loop
(source lines 83-87): `name`, `email`, `credit_limit`. -/
structure Client where
  name : PyVal
  email : PyVal
  credit_limit : PyVal
deriving DecidableEq

/-- `buyer.get('approval_status', 'unknown')` (line 80). -/
def statusOfD (b : PyVal) : Except String PyVal :=
  pyGetD b "approval_status" (.str "unknown")

/-- The client display record extraction of lines 83-87, including the
nested defaulting read `buyer.get('credit', {}).get('credit_limit', 0)`. -/
def clientOfE (b : PyVal) : Except String Client := do
  let n ← pyGetD b "display_name" (.str "Sin nombre")
  let em ← pyGetD b "email" (.str "")
  let cr ← pyGetD b "credit" (.dict [])
  let cl ← pyGetD cr "credit_limit" (.num 0)
  .ok ⟨n, em, cl⟩

/-- Append a client to the (insertion-ordered) group of its status key,
creating the group at the end when the key is new — the behaviour of
`status_groups[status].append(...)` on a Python dict (lines 81-87). -/
def addToGroups : List (PyVal × List Client) → PyVal → Client → List (PyVal × List Client)
  | [], k, c => [(k, [c])]
  | (k2, cs) :: rest, k, c =>
    if k2 = k then (k2, cs ++ [c]) :: rest else (k2, cs) :: addToGroups rest k c

/-- The grouping loop of lines 79-87: per buyer, read the status,
hash it for the membership test, build the client record, insert. -/
def groupsLoop : List PyVal → List (PyVal × List Client) → Except String (List (PyVal × List Client))
  | [], acc => .ok acc
  | b :: rest, acc => do
    let st ← statusOfD b
    let _ ← checkHashable st
    let c ← clientOfE b
    groupsLoop rest (addToGroups acc st c)

/-- `status_groups` computed from the buyers list (lines 78-87). -/
def statusGroupsE (bs : List PyVal) : Except String (List (PyVal × List Client)) :=
  groupsLoop bs []

/-- The summary header literal of lines 89-93. -/
def summaryHeader : String :=
  "\nRESUMEN DEL PROGRAMA DE CRÉDITO:\n\nCLIENTES POR STATUS DE APROBACIÓN:\n"

/-- One bucket's text (lines 95-106): canonical Spanish label for the
four known statuses, `status.upper()` otherwise (evaluated first, as
Python evaluates the `.get` default argument eagerly). -/
def renderGroup (k : PyVal) (cs : List Client) : Except String String := do
  let up ← pyUpper k
  let nm :=
    if k = .str "active" then "ACTIVOS"
    else if k = .str "pending" then "PENDIENTES"
    else if k = .str "rejected" then "RECHAZADOS"
    else if k = .str "suspended" then "SUSPENDIDOS"
    else up
  .ok (nm ++ " (" ++ toString cs.length ++ "):\n"
      ++ String.join (cs.map (fun c => "  • " ++ pyStr c.name ++ "\n")) ++ "\n")

/-- The bucket-rendering loop of lines 95-106, in bucket order. -/
def renderGroups : List (PyVal × List Client) → Except String String
  | [] => .ok ""
  | (k, cs) :: rest => do
    let s ← renderGroup k cs
    let r ← renderGroups rest
    .ok (s ++ r)

/-- `sum(p.get('amount', 0) for p in payouts)` (line 112): left fold
from `0`, defaulting read per payout, `TypeError` on non-numbers. -/
def sumAmounts : List PyVal → ℚ → Except String ℚ
  | [], acc => .ok acc
  | p :: ps, acc => do
    let a ← pyGetD p "amount" (.num 0)
    let q ← pyNum a
    sumAmounts ps (acc + q)

/-- The metrics block literal of lines 113-118. -/
def metricsBlock (nb : Nat) (rev : ℚ) (nOrd : Nat) : String :=
  "\nMÉTRICAS GENERALES:\n- Total clientes: " ++ toString nb
    ++ "\n- Ingresos totales: $" ++ formatMoney rev
    ++ "\n- Órdenes procesadas: " ++ toString nOrd ++ "\n"

/-- The `try`-body of `summarize_merchant_data` (lines 74-120), with the
source's evaluation order: buyers read and grouped, header and buckets
rendered, orders/payouts read, revenue summed, then the metrics block
(whose f-string evaluates `len(buyers)` before `len(orders)`). -/
def trySummarize (data : PyVal) : Except String String := do
  let buyersV ← pyGetD data "buyers" (.list [])
  let bs ← pyIterate buyersV
  let gs ← statusGroupsE bs
  let gtext ← renderGroups gs
  let _ordersV ← pyGetD data "orders" (.list [])
  let payoutsV ← pyGetD data "payouts" (.list [])
  let ps ← pyIterate payoutsV
  let rev ← sumAmounts ps 0
  let nb ← pyLen buyersV
  let nOrd ← pyLen _ordersV
  .ok (summaryHeader ++ gtext ++ metricsBlock nb rev nOrd)

/-- `summarize_merchant_data` (lines 73-123): the `try`-body's result,
or the diagnostic of line 123 when any internal fault occurs. -/
def summarize_merchant_data (data : PyVal) : String :=
  match trySummarize data with
  | .ok s => s
  | .error e => "Error procesando datos: " ++ e

/-- A LangChain message of the conversation window: `HumanMessage`
(`human`) or `AIMessage` (`ai`), carrying the turn's `content`. -/
inductive ChatMessage where
  | human (content : PyVal)
  | ai (content : PyVal)
deriving DecidableEq

/-- The `content` carried by a window message. -/
def contentOfChat : ChatMessage → PyVal
  | .human c => c
  | .ai c => c

/-- The windowing loop body of lines 155-159 over an already-sliced
turn list: `msg["role"]` is read (raising on absence), `"user"` turns
become `HumanMessage`, `"assistant"` turns `AIMessage`, anything else
is skipped. -/
def chatHistoryAux : List PyVal → Except String (List ChatMessage)
  | [] => .ok []
  | m :: rest => do
    let role ← pySubscript m "role"
    if role = .str "user" then do
      let c ← pySubscript m "content"
      let tail ← chatHistoryAux rest
      .ok (.human c :: tail)
    else if role = .str "assistant" then do
      let c ← pySubscript m "content"
      let tail ← chatHistoryAux rest
      .ok (.ai c :: tail)
    else
      chatHistoryAux rest

/-- The conversation window of lines 153-159: slice off the live query
(`conversation_history[:-1]`), then map the surviving turns. -/
def conversationWindow (v : PyVal) : Except String (List ChatMessage) := do
  let pre ← pySlicePre v
  chatHistoryAux pre

/-- The payload dict returned by `process_input` (lines 165-170):
exactly the four fields of the source's dict literal. -/
structure Payload where
  query : PyVal
  chat_history : List ChatMessage
  merchant_summary : String
  user_role : PyVal
deriving DecidableEq

/-- `process_input` (lines 146-170), with the source's evaluation
order: the four defaulting reads of lines 148-151, the window loop,
the merchant summary, the role default of line 163. -/
def process_input (input_data : PyVal) : Except String Payload := do
  let query ← pyGetD input_data "query" (.str "")
  let merchant_data ← pyGetD input_data "context" (.dict [])
  let user_context ← pyGetD input_data "user" (.dict [])
  let chV ← pyGetD input_data "conversation_history" (.list [])
  let chat_history ← conversationWindow chV
  let merchant_summary := summarize_merchant_data merchant_data
  let user_role ← pyGetD user_context "role" (.str "admin")
  .ok ⟨query, chat_history, merchant_summary, user_role⟩

/-! ## Generic helper lemmas -/

/-- Inversion for a successful `Except` bind. -/
theorem except_bind_ok {α β : Type} {e : Except String α} {f : α → Except String β} {b : β}
    (h : (e >>= f) = .ok b) : ∃ a, e = .ok a ∧ f a = .ok b := by
  cases e with
  | error m => simp [Bind.bind, Except.bind] at h
  | ok a => exact ⟨a, rfl, by simpa [Bind.bind, Except.bind] using h⟩

/-- A bind on an error never succeeds. -/
theorem except_error_bind {α β : Type} {f : α → Except String β} {m : String} {b : β} :
    ((Except.error m : Except String α) >>= f) = .ok b → False := by
  simp [Bind.bind, Except.bind]

/-- A string of length zero is the empty string. -/
theorem string_eq_empty_of_length {s : String} (h : s.length = 0) : s = "" := by
  cases s with
  | mk l =>
    cases l with
    | nil => rfl
    | cons a as => simp [String.length] at h

/-! ## C7: the degenerate Dataset renders with zero counts and totals -/

/-- Rounding the rational zero yields the integer zero. -/
theorem roundHalfEven_zero : roundHalfEven 0 = 0 := by
  unfold roundHalfEven
  have hf : (0 : ℚ).floor = 0 := rfl
  rw [hf]
  norm_num

/-- The money format renders zero as `0.00`. -/
theorem formatMoney_zero : formatMoney 0 = "0.00" := by
  unfold formatMoney
  rw [show ((0 : ℚ) * 100) = 0 by norm_num, roundHalfEven_zero]
  decide

/-- The metrics block of the degenerate Dataset. -/
theorem metricsBlock_zero :
    metricsBlock 0 0 0 =
      "\nMÉTRICAS GENERALES:\n- Total clientes: 0\n- Ingresos totales: $0.00\n- Órdenes procesadas: 0\n" := by
  unfold metricsBlock
  rw [formatMoney_zero]
  decide

/-- The summary rendered for a Dataset with no records. -/
def emptySummary : String :=
  "\nRESUMEN DEL PROGRAMA DE CRÉDITO:\n\nCLIENTES POR STATUS DE APROBACIÓN:\n\nMÉTRICAS GENERALES:\n- Total clientes: 0\n- Ingresos totales: $0.00\n- Órdenes procesadas: 0\n"

/-- C7: a Dataset whose buyers, orders, payouts and payment_links lists
are all absent (defaulting to empty), or all present and empty, renders
to a summary string — not an error — in which every count shown is `0`
and the monetary total shown is `0.00`. -/
theorem empty_dataset_summary_zeroes :
    summarize_merchant_data (.dict []) = emptySummary ∧
    summarize_merchant_data
      (.dict [("buyers", .list []), ("orders", .list []),
              ("payouts", .list []), ("payment_links", .list [])]) = emptySummary := by
  constructor
  · have h : summarize_merchant_data (.dict [])
        = summaryHeader ++ "" ++ metricsBlock 0 0 0 := rfl
    rw [h, metricsBlock_zero]
    decide
  · have h : summarize_merchant_data
        (.dict [("buyers", .list []), ("orders", .list []),
                ("payouts", .list []), ("payment_links", .list [])])
        = summaryHeader ++ "" ++ metricsBlock 0 0 0 := rfl
    rw [h, metricsBlock_zero]
    decide

/-! ## C1: total fallback, but with the source's diagnostic prefix -/

/-- C1 counterexample: on an input whose field access faults
(a number has no `.get`), the output is the single diagnostic line
`"Error procesando datos: <cause>"`, not
`"Error summarizing data: <cause>"` as the claim states. -/
theorem summarize_diagnostic_format_cex :
    trySummarize (.num 0) = .error "AttributeError: get" ∧
    summarize_merchant_data (.num 0) ≠ "Error summarizing data: " ++ "AttributeError: get" ∧
    summarize_merchant_data (.num 0) = "Error procesando datos: " ++ "AttributeError: get" :=
  ⟨rfl, by decide, rfl⟩

/-- C1 (amended): `summarize_merchant_data` never raises and always
returns a string — it is total — and when any internal fault occurs
during rendering its entire output is the single diagnostic line
`"Error procesando datos: <cause>"` where `<cause>` is the fault's
message. -/
theorem summarize_total_and_diagnostic :
    ∀ data : PyVal,
      (∃ s, trySummarize data = .ok s ∧ summarize_merchant_data data = s) ∨
      (∃ e, trySummarize data = .error e ∧
        summarize_merchant_data data = "Error procesando datos: " ++ e) := by
  intro data
  cases h : trySummarize data with
  | ok s => exact Or.inl ⟨s, rfl, by simp [summarize_merchant_data, h]⟩
  | error e => exact Or.inr ⟨e, rfl, by simp [summarize_merchant_data, h]⟩

/-! ## C9: the fallback is atomic -/

/-- C9: the fallback of `summarize_merchant_data` is atomic — when a
fault interrupts the rendering, the diagnostic line is the whole
output; no partial summary text precedes it, because the entire build
happens inside the guarded body before any value is returned. -/
theorem summarize_fallback_atomic :
    ∀ (data : PyVal) (e p : String),
      trySummarize data = .error e →
      summarize_merchant_data data = p ++ ("Error procesando datos: " ++ e) →
      p = "" := by
  intro data e p he hp
  have h1 : summarize_merchant_data data = "Error procesando datos: " ++ e := by
    simp [summarize_merchant_data, he]
  rw [h1] at hp
  have h3 := congrArg String.length hp.symm
  rw [String.length_append] at h3
  exact string_eq_empty_of_length (by omega)

/-- C9 witness: a concrete faulting input for which the theorem's
hypotheses hold. -/
theorem summarize_fallback_atomic_witness :
    trySummarize (.num 2) = .error "AttributeError: get" ∧
    summarize_merchant_data (.num 2)
      = "" ++ ("Error procesando datos: " ++ "AttributeError: get") ∧
    ("" : String) = "" :=
  ⟨rfl, by decide,
    summarize_fallback_atomic (.num 2) "AttributeError: get" "" rfl (by decide)⟩

/-! ## C3: utilization percentage (Metrics Aggregator, spec-modelled) -/

/-- Modelled from the spec: the buyer view the Metrics Aggregator of
§4.2 reads — `credit.credit_limit` and `credit.credit_used`, both
defaulting to 0. The aggregator itself is absent from the source file
(the shipped renderer computes only revenue and counts), so it is
modelled from the spec's words. -/
structure MBuyer where
  credit_limit : ℚ
  credit_used : ℚ
deriving DecidableEq

/-- Modelled from the spec: buyers whose `credit.credit_limit > 0`. -/
def active_clients (bs : List MBuyer) : List MBuyer :=
  bs.filter (fun b => decide (0 < b.credit_limit))

/-- Modelled from the spec: sum of `credit_limit` over active clients. -/
def total_credit_issued (bs : List MBuyer) : ℚ :=
  ((active_clients bs).map (fun b => b.credit_limit)).sum

/-- Modelled from the spec: sum of `credit_used` over the same set. -/
def total_credit_used (bs : List MBuyer) : ℚ :=
  ((active_clients bs).map (fun b => b.credit_used)).sum

/-- Modelled from the spec: `total_credit_used / total_credit_issued *
100` when `total_credit_issued > 0`, else exactly `0`. -/
def utilization_pct (bs : List MBuyer) : ℚ :=
  if 0 < total_credit_issued bs then
    total_credit_used bs / total_credit_issued bs * 100
  else 0

/-- C3: for every Dataset, `utilization_pct` equals
`total_credit_used / total_credit_issued * 100` when
`total_credit_issued > 0` and equals exactly `0` when
`total_credit_issued = 0`; being a total function into `ℚ`, computing
it never throws and never yields a non-finite value. -/
theorem utilization_pct_spec :
    ∀ bs : List MBuyer,
      (0 < total_credit_issued bs →
        utilization_pct bs = total_credit_used bs / total_credit_issued bs * 100) ∧
      (total_credit_issued bs = 0 → utilization_pct bs = 0) := by
  intro bs
  constructor
  · intro h
    simp [utilization_pct, h]
  · intro h
    simp [utilization_pct, h]

/-- C3 witness: both guards realised on concrete inputs. -/
theorem utilization_pct_spec_witness :
    (0 < total_credit_issued [⟨100000, 50000⟩] ∧
      utilization_pct [⟨100000, 50000⟩]
        = total_credit_used [⟨100000, 50000⟩] / total_credit_issued [⟨100000, 50000⟩] * 100) ∧
    (total_credit_issued ([] : List MBuyer) = 0 ∧ utilization_pct ([] : List MBuyer) = 0) :=
  ⟨⟨by norm_num [total_credit_issued, active_clients],
    (utilization_pct_spec [⟨100000, 50000⟩]).1
      (by norm_num [total_credit_issued, active_clients])⟩,
   ⟨by norm_num [total_credit_issued, active_clients],
    (utilization_pct_spec ([] : List MBuyer)).2
      (by norm_num [total_credit_issued, active_clients])⟩⟩

/-! ## C6: total revenue sums every payout regardless of status -/

/-- A payout record that the revenue sum accepts: a dict whose
`amount`, when present, is a number. -/
def goodPayout (p : PyVal) : Bool :=
  match p with
  | .dict kvs =>
    match lookupKV kvs "amount" with
    | some (.num _) => true
    | some _ => false
    | none => true
  | _ => false

/-- The defaulting `amount` read of line 112 as a total function:
a missing `amount` contributes 0. -/
def amountD (p : PyVal) : ℚ :=
  match p with
  | .dict kvs =>
    match lookupKV kvs "amount" with
    | some (.num q) => q
    | _ => 0
  | _ => 0

/-- The revenue loop, started from an arbitrary accumulator. -/
theorem sumAmounts_ok :
    ∀ (ps : List PyVal) (acc : ℚ), (∀ p ∈ ps, goodPayout p = true) →
      sumAmounts ps acc = .ok (acc + (ps.map amountD).sum) := by
  intro ps
  induction ps with
  | nil => intro acc _; simp [sumAmounts]
  | cons p ps ih =>
    intro acc h
    have hp : goodPayout p = true := h p (List.mem_cons_self p ps)
    have hps : ∀ q ∈ ps, goodPayout q = true := fun q hq => h q (List.mem_cons_of_mem p hq)
    cases p with
    | num q => simp [goodPayout] at hp
    | str s => simp [goodPayout] at hp
    | list xs => simp [goodPayout] at hp
    | dict kvs =>
      cases hl : lookupKV kvs "amount" with
      | none =>
        have ha : amountD (.dict kvs) = 0 := by simp [amountD, hl]
        simp [sumAmounts, pyGetD, hl, pyNum, Bind.bind, Except.bind, ih acc hps, ha,
          add_assoc]
      | some v =>
        cases v with
        | num q =>
          have ha : amountD (.dict kvs) = q := by simp [amountD, hl]
          simp [sumAmounts, pyGetD, hl, pyNum, Bind.bind, Except.bind, ih (acc + q) hps, ha,
            add_assoc]
        | str s => simp [goodPayout, hl] at hp
        | list xs => simp [goodPayout, hl] at hp
        | dict kvs2 => simp [goodPayout, hl] at hp

/-- C6: `total_revenue` is the sum of the `amount` field over all
payouts — no filtering by payout `status`, pending and completed alike
— and a payout with a missing `amount` contributes 0. -/
theorem total_revenue_sums_all_payouts :
    ∀ ps : List PyVal, (∀ p ∈ ps, goodPayout p = true) →
      sumAmounts ps 0 = .ok ((ps.map amountD).sum) := by
  intro ps h
  simpa using sumAmounts_ok ps 0 h

/-- The payouts of the C6 witness: one pending, one completed, one
with no `amount` field. -/
def c6payouts : List PyVal :=
  [.dict [("amount", .num 10), ("status", .str "pending")],
   .dict [("amount", .num 5), ("status", .str "completed")],
   .dict [("status", .str "completed")]]

/-- C6 witness: the statuses `pending` and `completed` are both
counted and the missing `amount` contributes 0, totalling 15. -/
theorem total_revenue_sums_all_payouts_witness :
    (∀ p ∈ c6payouts, goodPayout p = true) ∧
    sumAmounts c6payouts 0 = .ok ((c6payouts.map amountD).sum) ∧
    (c6payouts.map amountD).sum = 15 :=
  ⟨by decide, total_revenue_sums_all_payouts c6payouts (by decide),
   by
    have h1 : c6payouts.map amountD = [10, 5, 0] := by decide
    rw [h1]
    norm_num⟩

/-! ## C8: the assembled payload and the admin default -/

/-- C8: a successful `process_input` call returns a `Payload` — a
record with exactly the four fields `query`, `chat_history`,
`merchant_summary`, `user_role` of the source's dict literal — and the
`user_role` field equals `"admin"` whenever the input's user object
does not specify a role. -/
theorem process_input_payload_admin_default :
    ∀ (inp : PyVal) (p : Payload), process_input inp = .ok p →
      ∃ u, pyGetD inp "user" (.dict []) = .ok u ∧
        pyGetD u "role" (.str "admin") = .ok p.user_role ∧
        (∀ kvs, u = .dict kvs → lookupKV kvs "role" = none →
          p.user_role = .str "admin") := by
  intro inp p h
  unfold process_input at h
  obtain ⟨q, hq, h⟩ := except_bind_ok h
  obtain ⟨md, hmd, h⟩ := except_bind_ok h
  obtain ⟨u, hu, h⟩ := except_bind_ok h
  obtain ⟨chv, hchv, h⟩ := except_bind_ok h
  obtain ⟨ch, hch, h⟩ := except_bind_ok h
  obtain ⟨ur, hur, h⟩ := except_bind_ok h
  have hp : p = ⟨q, ch, summarize_merchant_data md, ur⟩ := by
    cases h; rfl
  refine ⟨u, hu, ?_, ?_⟩
  · rw [hp]
    exact hur
  · intro kvs hkvs hnone
    rw [hkvs] at hur
    simp [pyGetD, hnone] at hur
    rw [hp]
    simp [hur]

/-- The payload produced for the empty request object. -/
def c8payload : Payload :=
  ⟨.str "", [], summarize_merchant_data (.dict []), .str "admin"⟩

/-- C8 witness: the empty request object succeeds and defaults the
role to `admin`. -/
theorem process_input_payload_admin_default_witness :
    process_input (.dict []) = .ok c8payload ∧
    (∃ u, pyGetD (.dict []) "user" (.dict []) = .ok u ∧
      pyGetD u "role" (.str "admin") = .ok c8payload.user_role ∧
      (∀ kvs, u = .dict kvs → lookupKV kvs "role" = none →
        c8payload.user_role = .str "admin")) :=
  ⟨rfl, process_input_payload_admin_default (.dict []) c8payload rfl⟩

/-! ## The conversation windower: C2 and C5 -/

/-- A turn whose `role` field reads successfully and is `"user"` or
`"assistant"` (Python compares with `==`, so a non-string role is
simply unequal, not an error). -/
def recognizedB (m : PyVal) : Bool :=
  match pySubscript m "role" with
  | .ok r => if r = .str "user" ∨ r = .str "assistant" then true else false
  | .error _ => false

/-- Declarative one-turn mapping: `user` turns to `HumanMessage`,
`assistant` turns to `AIMessage`, everything else to nothing. -/
def turnSpec (m : PyVal) : Option ChatMessage :=
  match pySubscript m "role" with
  | .ok r =>
    if r = .str "user" then
      match pySubscript m "content" with
      | .ok c => some (.human c)
      | .error _ => none
    else if r = .str "assistant" then
      match pySubscript m "content" with
      | .ok c => some (.ai c)
      | .error _ => none
    else none
  | .error _ => none

/-- The turn's `content`, when readable. -/
def contentLookup (m : PyVal) : Option PyVal :=
  (pySubscript m "content").toOption

/-- A turn the windowing loop traverses without raising: its `role`
reads, and when the role is recognized its `content` reads too. -/
def goodTurn (m : PyVal) : Bool :=
  match pySubscript m "role" with
  | .ok r =>
    if r = .str "user" ∨ r = .str "assistant" then (pySubscript m "content").toOption.isSome
    else true
  | .error _ => false

/-- A mapped turn carries exactly the turn's `content`. -/
theorem turnSpec_content :
    ∀ (m : PyVal) (cm : ChatMessage), turnSpec m = some cm →
      contentLookup m = some (contentOfChat cm) := by
  intro m cm h
  cases hr : pySubscript m "role" with
  | error e => simp [turnSpec, hr] at h
  | ok r =>
    simp only [turnSpec, hr] at h
    by_cases h1 : r = .str "user"
    · rw [if_pos h1] at h
      cases hc : pySubscript m "content" with
      | error e => simp [hc] at h
      | ok c =>
        simp only [hc] at h
        injection h with h
        subst h
        simp [contentLookup, hc, contentOfChat, Except.toOption]
    · rw [if_neg h1] at h
      by_cases h2 : r = .str "assistant"
      · rw [if_pos h2] at h
        cases hc : pySubscript m "content" with
        | error e => simp [hc] at h
        | ok c =>
          simp only [hc] at h
          injection h with h
          subst h
          simp [contentLookup, hc, contentOfChat, Except.toOption]
      · rw [if_neg h2] at h
        exact absurd h (by simp)

/-- Only recognized-role turns are mapped. -/
theorem turnSpec_isSome_recognized :
    ∀ m : PyVal, (turnSpec m).isSome = true → recognizedB m = true := by
  intro m h
  cases hr : pySubscript m "role" with
  | error e => simp [turnSpec, hr] at h
  | ok r =>
    simp only [turnSpec, hr] at h
    simp only [recognizedB, hr]
    by_cases h1 : r = .str "user"
    · simp [h1]
    · rw [if_neg h1] at h
      by_cases h2 : r = .str "assistant"
      · simp [h2]
      · rw [if_neg h2] at h
        simp at h

/-- Inversion of a successful run of the windowing loop: the result is
the declarative filter-map, and every recognized-role turn was mapped. -/
theorem chatHistoryAux_ok :
    ∀ (pre : List PyVal) (ms : List ChatMessage), chatHistoryAux pre = .ok ms →
      ms = pre.filterMap turnSpec ∧
      ∀ m ∈ pre, recognizedB m = true → (turnSpec m).isSome = true := by
  intro pre
  induction pre with
  | nil =>
    intro ms h
    simp [chatHistoryAux] at h
    simp [h.symm]
  | cons m rest ih =>
    intro ms h
    unfold chatHistoryAux at h
    obtain ⟨r, hr, h⟩ := except_bind_ok h
    by_cases h1 : r = .str "user"
    · rw [if_pos h1] at h
      obtain ⟨c, hc, h⟩ := except_bind_ok h
      obtain ⟨tail, htail, h⟩ := except_bind_ok h
      have hms : ms = .human c :: tail := by cases h; rfl
      obtain ⟨ih1, ih2⟩ := ih tail htail
      have hts : turnSpec m = some (.human c) := by
        simp [turnSpec, hr, h1, hc]
      constructor
      · rw [hms, List.filterMap_cons, hts, ih1]
      · intro m2 hm2 hrec
        rcases List.mem_cons.mp hm2 with h3 | h3
        · subst h3; simp [hts]
        · exact ih2 m2 h3 hrec
    · rw [if_neg h1] at h
      by_cases h2 : r = .str "assistant"
      · rw [if_pos h2] at h
        obtain ⟨c, hc, h⟩ := except_bind_ok h
        obtain ⟨tail, htail, h⟩ := except_bind_ok h
        have hms : ms = .ai c :: tail := by cases h; rfl
        obtain ⟨ih1, ih2⟩ := ih tail htail
        have hts : turnSpec m = some (.ai c) := by
          simp [turnSpec, hr, h1, h2, hc]
        constructor
        · rw [hms, List.filterMap_cons, hts, ih1]
        · intro m2 hm2 hrec
          rcases List.mem_cons.mp hm2 with h3 | h3
          · subst h3; simp [hts]
          · exact ih2 m2 h3 hrec
      · rw [if_neg h2] at h
        obtain ⟨ih1, ih2⟩ := ih ms h
        have hts : turnSpec m = none := by
          simp [turnSpec, hr, h1, h2]
        have hrec : recognizedB m = false := by
          simp [recognizedB, hr, h1, h2]
        constructor
        · rw [List.filterMap_cons, hts, ih1]
        · intro m2 hm2 hr2
          rcases List.mem_cons.mp hm2 with h3 | h3
          · subst h3; rw [hrec] at hr2; exact absurd hr2 (by simp)
          · exact ih2 m2 h3 hr2

/-- The length of a filter-map equals the count of mapped elements. -/
theorem length_filterMap_countP {α β : Type} (f : α → Option β) :
    ∀ l : List α, (l.filterMap f).length = l.countP (fun a => (f a).isSome) := by
  intro l
  induction l with
  | nil => rfl
  | cons a l ih =>
    rw [List.filterMap_cons, List.countP_cons]
    cases h : f a with
    | none => simp [h, ih]
    | some b => simp [h, ih]

/-- Head transfer between the mapped window and the recognized turns. -/
theorem head_filterMap_filter :
    ∀ l : List PyVal, (∀ m ∈ l, recognizedB m = true → (turnSpec m).isSome = true) →
      ((l.filterMap turnSpec).head?).map contentOfChat
        = ((l.filter recognizedB).head?).bind contentLookup := by
  intro l
  induction l with
  | nil => intro _; rfl
  | cons m rest ih =>
    intro h
    have hrest : ∀ m2 ∈ rest, recognizedB m2 = true → (turnSpec m2).isSome = true :=
      fun m2 hm2 => h m2 (List.mem_cons_of_mem m hm2)
    cases hrec : recognizedB m with
    | true =>
      have hsome := h m (List.mem_cons_self m rest) hrec
      obtain ⟨cm, hcm⟩ := Option.isSome_iff_exists.mp hsome
      rw [List.filterMap_cons, hcm, List.filter_cons_of_pos hrec]
      simp [turnSpec_content m cm hcm]
    | false =>
      cases hts : turnSpec m with
      | some cm =>
        have := turnSpec_isSome_recognized m (by simp [hts])
        rw [hrec] at this
        exact absurd this (by simp)
      | none =>
        rw [List.filterMap_cons, hts, List.filter_cons_of_neg (by simp [hrec])]
        exact ih hrest

/-- Last-element transfer between the mapped window and the recognized
turns. -/
theorem getLast_filterMap_filter :
    ∀ l : List PyVal, (∀ m ∈ l, recognizedB m = true → (turnSpec m).isSome = true) →
      ((l.filterMap turnSpec).getLast?).map contentOfChat
        = ((l.filter recognizedB).getLast?).bind contentLookup := by
  intro l h
  have h2 := head_filterMap_filter l.reverse
    (fun m hm => h m (List.mem_reverse.mp hm))
  rw [List.filterMap_reverse, List.filter_reverse, List.head?_reverse, List.head?_reverse] at h2
  exact h2

/-- C2 (amended): a successfully produced conversation window has
length equal to the number of prefix turns (all input turns except the
last) whose role is `user` or `assistant` — not `max(0, len(input)-1)`
— and, when non-empty, its last element's content equals the content
of the last such recognized turn of the prefix (never the input's last
element's). -/
theorem conversation_window_length_last :
    ∀ (msgs : List PyVal) (ms : List ChatMessage),
      conversationWindow (.list msgs) = .ok ms →
      ms.length = msgs.dropLast.countP recognizedB ∧
      ms.getLast?.map contentOfChat
        = ((msgs.dropLast.filter recognizedB).getLast?).bind contentLookup := by
  intro msgs ms h
  have h2 : chatHistoryAux msgs.dropLast = .ok ms := h
  obtain ⟨h3, h4⟩ := chatHistoryAux_ok _ _ h2
  subst h3
  constructor
  · rw [length_filterMap_countP]
    refine List.countP_congr ?_
    intro m hm
    constructor
    · intro h5
      exact turnSpec_isSome_recognized m h5
    · intro h5
      exact h4 m hm h5
  · exact getLast_filterMap_filter _ h4

/-- The raw history of the C2 counterexample: a `system` turn followed
by the live `user` query. -/
def c2msgs : List PyVal :=
  [.dict [("role", .str "system"), ("content", .str "a")],
   .dict [("role", .str "user"), ("content", .str "b")]]

/-- C2 counterexample: for this two-element history the window has
length 0, not `max(0, len(input) - 1) = 1`, because the prefix's
`system` turn is skipped. -/
theorem conversation_window_length_cex :
    conversationWindow (.list c2msgs) = .ok [] ∧
    c2msgs.length - 1 = 1 ∧
    ([] : List ChatMessage).length ≠ c2msgs.length - 1 :=
  ⟨rfl, rfl, by decide⟩

/-- C2 witness: the amended statement applied at the counterexample
history. -/
theorem conversation_window_length_last_witness :
    conversationWindow (.list c2msgs) = .ok [] ∧
    (([] : List ChatMessage).length = c2msgs.dropLast.countP recognizedB ∧
     ([] : List ChatMessage).getLast?.map contentOfChat
       = ((c2msgs.dropLast.filter recognizedB).getLast?).bind contentLookup) :=
  ⟨rfl, conversation_window_length_last c2msgs [] rfl⟩

/-- Traversable turns make the loop succeed with the declarative map. -/
theorem chatHistoryAux_good :
    ∀ pre : List PyVal, (∀ m ∈ pre, goodTurn m = true) →
      chatHistoryAux pre = .ok (pre.filterMap turnSpec) := by
  intro pre
  induction pre with
  | nil => intro _; rfl
  | cons m rest ih =>
    intro h
    have hm : goodTurn m = true := h m (List.mem_cons_self m rest)
    have hrest := fun m2 hm2 => h m2 (List.mem_cons_of_mem m hm2)
    cases hr : pySubscript m "role" with
    | error e => simp [goodTurn, hr] at hm
    | ok r =>
      simp only [goodTurn, hr] at hm
      by_cases h1 : r = .str "user"
      · rw [if_pos (Or.inl h1)] at hm
        obtain ⟨c, hc⟩ := Option.isSome_iff_exists.mp hm
        have hc2 : pySubscript m "content" = .ok c := by
          cases hcc : pySubscript m "content" with
          | error e => rw [hcc] at hc; simp [Except.toOption] at hc
          | ok c2 => rw [hcc] at hc; simp [Except.toOption] at hc; rw [hc]
        show (pySubscript m "role" >>= _) = _
        rw [hr]
        simp only [Bind.bind, Except.bind]
        rw [if_pos h1]
        simp only [hc2, ih hrest, Bind.bind, Except.bind]
        rw [List.filterMap_cons]
        simp [turnSpec, hr, h1, hc2]
      · by_cases h2 : r = .str "assistant"
        · rw [if_pos (Or.inr h2)] at hm
          obtain ⟨c, hc⟩ := Option.isSome_iff_exists.mp hm
          have hc2 : pySubscript m "content" = .ok c := by
            cases hcc : pySubscript m "content" with
            | error e => rw [hcc] at hc; simp [Except.toOption] at hc
            | ok c2 => rw [hcc] at hc; simp [Except.toOption] at hc; rw [hc]
          show (pySubscript m "role" >>= _) = _
          rw [hr]
          simp only [Bind.bind, Except.bind]
          rw [if_neg h1, if_pos h2]
          simp only [hc2, ih hrest, Bind.bind, Except.bind]
          rw [List.filterMap_cons]
          simp [turnSpec, hr, h1, h2, hc2]
        · show (pySubscript m "role" >>= _) = _
          rw [hr]
          simp only [Bind.bind, Except.bind]
          rw [if_neg h1, if_neg h2]
          rw [List.filterMap_cons]
          have hts : turnSpec m = none := by simp [turnSpec, hr, h1, h2]
          rw [hts]
          exact ih hrest

/-- C5: every prefix turn whose role is neither `user` nor `assistant`
is silently skipped — the windower neither raises nor includes it —
while `user` turns map to `HumanMessage` values and `assistant` turns
to `AIMessage` values, the original relative order being preserved by
the order-preserving filter-map. -/
theorem window_skips_unrecognized :
    ∀ msgs : List PyVal, (∀ m ∈ msgs.dropLast, goodTurn m = true) →
      conversationWindow (.list msgs) = .ok (msgs.dropLast.filterMap turnSpec) := by
  intro msgs h
  show chatHistoryAux msgs.dropLast = _
  exact chatHistoryAux_good _ h

/-- The raw history of the C5 witness: `system` and `tool` turns mixed
with recognized ones, and the live query last. -/
def c5msgs : List PyVal :=
  [.dict [("role", .str "system"), ("content", .str "sys")],
   .dict [("role", .str "user"), ("content", .str "hola")],
   .dict [("role", .str "assistant"), ("content", .str "respuesta")],
   .dict [("role", .str "tool"), ("content", .str "x")],
   .dict [("role", .str "user"), ("content", .str "live")]]

/-- C5 witness: the `system` and `tool` turns vanish without error,
the recognized turns survive in order. -/
theorem window_skips_unrecognized_witness :
    (∀ m ∈ c5msgs.dropLast, goodTurn m = true) ∧
    conversationWindow (.list c5msgs) = .ok (c5msgs.dropLast.filterMap turnSpec) ∧
    c5msgs.dropLast.filterMap turnSpec
      = [.human (.str "hola"), .ai (.str "respuesta")] :=
  ⟨by decide, window_skips_unrecognized c5msgs (by decide), by decide⟩

/-! ## The status classifier: C4 and C10 -/

/-- The bucket keys, in the order the rendering loop visits them. -/
def keysOf (gs : List (PyVal × List Client)) : List PyVal :=
  gs.map Prod.fst

/-- The total number of clients across all buckets. -/
def sizesOf (gs : List (PyVal × List Client)) : Nat :=
  (gs.map (fun g => g.2.length)).sum

/-- The clients of the bucket keyed `k` (empty when absent). -/
def bucketOf : List (PyVal × List Client) → PyVal → List Client
  | [], _ => []
  | (k2, cs) :: rest, k => if k2 = k then cs else bucketOf rest k

/-- The grouping loop, stripped of its failure cases: fold the
(status, client) pairs into insertion-ordered buckets. -/
def pureGroups : List (PyVal × Client) → List (PyVal × List Client) → List (PyVal × List Client)
  | [], acc => acc
  | (k, c) :: rest, acc => pureGroups rest (addToGroups acc k c)

/-- One buyer's contribution to the grouping loop, as an optional
(status, client) pair: present exactly when the loop body would not
raise on this buyer. -/
def extractF (b : PyVal) : Option (PyVal × Client) :=
  match statusOfD b with
  | .ok s =>
    match checkHashable s with
    | .ok _ =>
      match clientOfE b with
      | .ok c => some (s, c)
      | .error _ => none
    | .error _ => none
  | .error _ => none

/-- The distinct values of a list in first-encounter order. -/
def firstEncounters : List PyVal → List PyVal
  | [] => []
  | a :: l => a :: (firstEncounters l).filter (fun x => decide (x ≠ a))

/-- A buyer dict with no `approval_status` key. -/
def statusMissing (b : PyVal) : Bool :=
  match b with
  | .dict kvs => (lookupKV kvs "approval_status").isNone
  | _ => false

/-- Appending under an existing key leaves the key order unchanged. -/
theorem keysOf_add_mem :
    ∀ (gs : List (PyVal × List Client)) (k : PyVal) (c : Client),
      k ∈ keysOf gs → keysOf (addToGroups gs k c) = keysOf gs := by
  intro gs
  induction gs with
  | nil => intro k c h; simp [keysOf] at h
  | cons g rest ih =>
    intro k c h
    obtain ⟨k2, cs⟩ := g
    by_cases hk : k2 = k
    · simp [addToGroups, hk, keysOf]
    · have h2 : k ∈ keysOf rest := by
        rcases List.mem_cons.mp h with h3 | h3
        · exact absurd h3.symm hk
        · exact h3
      simp [addToGroups, hk, keysOf]
      exact ih k c h2

/-- Appending under a fresh key appends the key at the end. -/
theorem keysOf_add_not_mem :
    ∀ (gs : List (PyVal × List Client)) (k : PyVal) (c : Client),
      k ∉ keysOf gs → keysOf (addToGroups gs k c) = keysOf gs ++ [k] := by
  intro gs
  induction gs with
  | nil => intro k c _; simp [addToGroups, keysOf]
  | cons g rest ih =>
    intro k c h
    obtain ⟨k2, cs⟩ := g
    by_cases hk : k2 = k
    · exact absurd (hk ▸ List.mem_cons_self k2 (keysOf rest)) h
    · have h2 : k ∉ keysOf rest := fun h3 => h (List.mem_cons_of_mem _ h3)
      simp [addToGroups, hk, keysOf]
      exact ih k c h2

/-- Each insertion grows the total client count by one. -/
theorem sizesOf_add :
    ∀ (gs : List (PyVal × List Client)) (k : PyVal) (c : Client),
      sizesOf (addToGroups gs k c) = sizesOf gs + 1 := by
  intro gs
  induction gs with
  | nil => intro k c; simp [addToGroups, sizesOf]
  | cons g rest ih =>
    intro k c
    obtain ⟨k2, cs⟩ := g
    by_cases hk : k2 = k
    · simp [addToGroups, hk, sizesOf]
      omega
    · simp [addToGroups, hk, sizesOf] at ih ⊢
      rw [ih k c]
      omega

/-- Each insertion appends the client to exactly its key's bucket. -/
theorem bucketOf_add :
    ∀ (gs : List (PyVal × List Client)) (k : PyVal) (c : Client) (k2 : PyVal),
      bucketOf (addToGroups gs k c) k2
        = bucketOf gs k2 ++ (if k = k2 then [c] else []) := by
  intro gs
  induction gs with
  | nil =>
    intro k c k2
    by_cases hk : k = k2
    · simp [addToGroups, bucketOf, hk]
    · simp [addToGroups, bucketOf, hk]
  | cons g rest ih =>
    intro k c k2
    obtain ⟨k3, cs⟩ := g
    by_cases h3 : k3 = k
    · subst h3
      by_cases h2 : k3 = k2
      · simp [addToGroups, bucketOf, h2]
      · simp [addToGroups, bucketOf, h2, fun h => h2 h]
    · by_cases h2 : k3 = k2
      · subst h2
        have hkk : ¬(k = k3) := fun h => h3 h.symm
        simp [addToGroups, bucketOf, h3, hkk]
      · simp [addToGroups, bucketOf, h3, h2]
        exact ih k c k2

/-- The keys of the folded groups: the accumulator's keys followed by
the new statuses in first-encounter order. -/
theorem keysOf_pureGroups :
    ∀ (ps : List (PyVal × Client)) (acc : List (PyVal × List Client)),
      keysOf (pureGroups ps acc)
        = keysOf acc
          ++ (firstEncounters (ps.map Prod.fst)).filter
               (fun x => decide (x ∉ keysOf acc)) := by
  intro ps
  induction ps with
  | nil => intro acc; simp [pureGroups, firstEncounters]
  | cons p rest ih =>
    intro acc
    obtain ⟨k, c⟩ := p
    show keysOf (pureGroups rest (addToGroups acc k c)) = _
    rw [ih (addToGroups acc k c)]
    simp only [List.map_cons, firstEncounters, List.filter_cons]
    by_cases hk : k ∈ keysOf acc
    · rw [keysOf_add_mem _ _ _ hk]
      have hd : (decide (k ∉ keysOf acc)) = false := by simp [hk]
      rw [hd]
      simp only [Bool.false_eq_true, if_false]
      congr 1
      rw [List.filter_filter]
      refine List.filter_congr ?_
      intro x _
      by_cases hxa : x ∈ keysOf acc
      · simp [hxa]
      · have hxk : x ≠ k := fun he => hxa (he ▸ hk)
        simp [hxa, hxk]
    · rw [keysOf_add_not_mem _ _ _ hk]
      have hd : (decide (k ∉ keysOf acc)) = true := by simp [hk]
      rw [hd]
      simp only [if_true, List.append_assoc, List.singleton_append]
      congr 2
      rw [List.filter_filter]
      refine List.filter_congr ?_
      intro x _
      by_cases hxk : x = k
      · simp [hxk, List.mem_append]
      · by_cases hxa : x ∈ keysOf acc
        · simp [hxa, List.mem_append]
        · simp [hxa, hxk, List.mem_append]

/-- The folded groups hold the accumulator's clients plus one per
pair. -/
theorem sizesOf_pureGroups :
    ∀ (ps : List (PyVal × Client)) (acc : List (PyVal × List Client)),
      sizesOf (pureGroups ps acc) = sizesOf acc + ps.length := by
  intro ps
  induction ps with
  | nil => intro acc; simp [pureGroups]
  | cons p rest ih =>
    intro acc
    obtain ⟨k, c⟩ := p
    show sizesOf (pureGroups rest (addToGroups acc k c)) = _
    rw [ih (addToGroups acc k c), sizesOf_add]
    simp
    omega

/-- The bucket keyed `k` collects exactly the clients of the pairs
with status `k`, in order. -/
theorem bucketOf_pureGroups :
    ∀ (ps : List (PyVal × Client)) (acc : List (PyVal × List Client)) (k : PyVal),
      bucketOf (pureGroups ps acc) k
        = bucketOf acc k ++ (ps.filter (fun q2 => decide (q2.1 = k))).map Prod.snd := by
  intro ps
  induction ps with
  | nil => intro acc k; simp [pureGroups]
  | cons p rest ih =>
    intro acc k
    obtain ⟨k2, c⟩ := p
    show bucketOf (pureGroups rest (addToGroups acc k2 c)) k = _
    rw [ih (addToGroups acc k2 c) k, bucketOf_add]
    rw [List.filter_cons]
    by_cases hk : k2 = k
    · simp [hk]
    · simp [hk]

/-- Inversion of a mapped buyer: its status and client reads succeed
with the mapped values. -/
theorem extractF_some :
    ∀ (b : PyVal) (s : PyVal) (c : Client), extractF b = some (s, c) →
      statusOfD b = .ok s ∧ clientOfE b = .ok c := by
  intro b s c h
  cases hst : statusOfD b with
  | error e => simp [extractF, hst] at h
  | ok s2 =>
    simp only [extractF, hst] at h
    cases hh : checkHashable s2 with
    | error e => simp [hh] at h
    | ok u =>
      simp only [hh] at h
      cases hc : clientOfE b with
      | error e => simp [hc] at h
      | ok c2 =>
        simp only [hc] at h
        injection h with h
        injection h with h1 h2
        exact ⟨by rw [h1], by rw [h2]⟩

/-- A buyer dict with no `approval_status` reads the default status
`unknown`. -/
theorem statusMissing_unknown :
    ∀ b : PyVal, statusMissing b = true → statusOfD b = .ok (.str "unknown") := by
  intro b h
  cases b with
  | num q => simp [statusMissing] at h
  | str s => simp [statusMissing] at h
  | list xs => simp [statusMissing] at h
  | dict kvs =>
    simp only [statusMissing] at h
    have h2 : lookupKV kvs "approval_status" = none := Option.isNone_iff_eq_none.mp h
    simp [statusOfD, pyGetD, h2]

/-- Inversion of a successful grouping loop: the result is the pure
fold over the per-buyer extraction, and every buyer was extracted. -/
theorem groupsLoop_ok :
    ∀ (bs : List PyVal) (acc gs : List (PyVal × List Client)),
      groupsLoop bs acc = .ok gs →
      gs = pureGroups (bs.filterMap extractF) acc ∧
      ∀ b ∈ bs, (extractF b).isSome = true := by
  intro bs
  induction bs with
  | nil =>
    intro acc gs h
    simp [groupsLoop] at h
    exact ⟨by simp [pureGroups, h.symm], by simp⟩
  | cons b rest ih =>
    intro acc gs h
    unfold groupsLoop at h
    obtain ⟨st, hst, h⟩ := except_bind_ok h
    obtain ⟨u, hu, h⟩ := except_bind_ok h
    obtain ⟨c, hc, h⟩ := except_bind_ok h
    obtain ⟨ih1, ih2⟩ := ih (addToGroups acc st c) gs h
    have hex : extractF b = some (st, c) := by
      simp [extractF, hst, hu, hc]
    constructor
    · rw [List.filterMap_cons, hex]
      simp only [pureGroups]
      exact ih1
    · intro b2 hb2
      rcases List.mem_cons.mp hb2 with h3 | h3
      · subst h3; simp [hex]
      · exact ih2 b2 h3

/-- Under total extraction, the statuses of the extracted pairs are
the statuses of the buyers. -/
theorem extract_fst :
    ∀ bs : List PyVal, (∀ b ∈ bs, (extractF b).isSome = true) →
      (bs.filterMap extractF).map Prod.fst
        = bs.filterMap (fun b => (statusOfD b).toOption) := by
  intro bs
  induction bs with
  | nil => intro _; rfl
  | cons b rest ih =>
    intro h
    have hb := h b (List.mem_cons_self b rest)
    obtain ⟨⟨s, c⟩, hex⟩ := Option.isSome_iff_exists.mp hb
    obtain ⟨hs, _⟩ := extractF_some b s c hex
    rw [List.filterMap_cons, hex, List.filterMap_cons]
    simp only [List.map_cons]
    have hto : (statusOfD b).toOption = some s := by rw [hs]; rfl
    simp only [hto]
    rw [ih (fun b2 h2 => h b2 (List.mem_cons_of_mem b h2))]

/-- Under total extraction, no buyer is dropped. -/
theorem extract_length :
    ∀ bs : List PyVal, (∀ b ∈ bs, (extractF b).isSome = true) →
      (bs.filterMap extractF).length = bs.length := by
  intro bs
  induction bs with
  | nil => intro _; rfl
  | cons b rest ih =>
    intro h
    obtain ⟨x, hex⟩ := Option.isSome_iff_exists.mp (h b (List.mem_cons_self b rest))
    rw [List.filterMap_cons, hex]
    simp only [List.length_cons]
    rw [ih (fun b2 h2 => h b2 (List.mem_cons_of_mem b h2))]

/-- C4: the buckets of the status classifier appear in first-encounter
order of the `approval_status` values of the input buyers — not
alphabetical, not canonical — and every buyer whose `approval_status`
field is absent lands in the reserved `unknown` bucket. -/
theorem status_buckets_first_encounter_unknown :
    ∀ (bs : List PyVal) (gs : List (PyVal × List Client)),
      statusGroupsE bs = .ok gs →
      keysOf gs = firstEncounters (bs.filterMap (fun b => (statusOfD b).toOption)) ∧
      ∀ b ∈ bs, statusMissing b = true →
        ∀ c, clientOfE b = .ok c → c ∈ bucketOf gs (.str "unknown") := by
  intro bs gs h
  obtain ⟨h1, h2⟩ := groupsLoop_ok bs [] gs h
  constructor
  · rw [h1, keysOf_pureGroups]
    have hnil : keysOf ([] : List (PyVal × List Client)) = [] := rfl
    rw [hnil]
    rw [extract_fst bs h2]
    simp
  · intro b hb hmiss c hc
    have hsome := h2 b hb
    obtain ⟨⟨s, c2⟩, hsc⟩ := Option.isSome_iff_exists.mp hsome
    obtain ⟨hs, hc2⟩ := extractF_some b s c2 hsc
    have hs2 : s = .str "unknown" := by
      have h3 := statusMissing_unknown b hmiss
      rw [hs] at h3
      injection h3
    have hcc : c2 = c := by
      rw [hc] at hc2
      injection hc2 with h4
      exact h4.symm
    subst hs2
    subst hcc
    have hmem : ((.str "unknown" : PyVal), c2) ∈ bs.filterMap extractF :=
      List.mem_filterMap.mpr ⟨b, hb, hsc⟩
    rw [h1, bucketOf_pureGroups]
    have hnil : bucketOf ([] : List (PyVal × List Client)) (.str "unknown") = [] := rfl
    rw [hnil, List.nil_append]
    exact List.mem_map.mpr
      ⟨(.str "unknown", c2), List.mem_filter.mpr ⟨hmem, by simp⟩, rfl⟩

/-- The buyers of the C4 witness: statuses `pending`, `active`, one
absent, `pending` again. -/
def c4buyers : List PyVal :=
  [.dict [("approval_status", .str "pending"), ("display_name", .str "A")],
   .dict [("approval_status", .str "active"), ("display_name", .str "B")],
   .dict [("display_name", .str "C")],
   .dict [("approval_status", .str "pending"), ("display_name", .str "D")]]

/-- The groups computed for the C4 witness buyers. -/
def c4groups : List (PyVal × List Client) :=
  (statusGroupsE c4buyers).toOption.getD []

/-- C4 witness: the bucket order is `pending`, `active`, `unknown` —
the first-encounter order — and the status-less buyer is in the
`unknown` bucket. -/
theorem status_buckets_first_encounter_unknown_witness :
    statusGroupsE c4buyers = .ok c4groups ∧
    (keysOf c4groups
        = firstEncounters (c4buyers.filterMap (fun b => (statusOfD b).toOption)) ∧
      ∀ b ∈ c4buyers, statusMissing b = true →
        ∀ c, clientOfE b = .ok c → c ∈ bucketOf c4groups (.str "unknown")) ∧
    keysOf c4groups = [.str "pending", .str "active", .str "unknown"] :=
  ⟨rfl, status_buckets_first_encounter_unknown c4buyers c4groups rfl, rfl⟩

/-- `len(v)` agrees with the length of `v`'s iteration. -/
theorem pyLen_of_iterate :
    ∀ (v : PyVal) (bs : List PyVal), pyIterate v = .ok bs → pyLen v = .ok bs.length := by
  intro v bs h
  cases v with
  | num q => simp [pyIterate] at h
  | str s =>
    simp only [pyIterate] at h
    injection h with h
    subst h
    simp only [pyLen, List.length_map]
    rfl
  | list xs =>
    simp only [pyIterate] at h
    injection h with h
    subst h
    simp [pyLen]
  | dict kvs =>
    simp only [pyIterate] at h
    injection h with h
    subst h
    simp [pyLen, List.length_map]

/-- C10: whenever summarization succeeds, the `Total clientes` figure
(`len(buyers)`) equals the sum of the per-status bucket counts shown
in the buyer listing — every buyer lands in exactly one bucket, none
double-counted or omitted. -/
theorem total_clients_equals_bucket_sum :
    ∀ (data : PyVal) (s : String), trySummarize data = .ok s →
      ∃ bv bs gs,
        pyGetD data "buyers" (.list []) = .ok bv ∧
        pyIterate bv = .ok bs ∧
        statusGroupsE bs = .ok gs ∧
        pyLen bv = .ok (sizesOf gs) := by
  intro data s h
  unfold trySummarize at h
  obtain ⟨bv, hbv, h⟩ := except_bind_ok h
  obtain ⟨bs, hbs, h⟩ := except_bind_ok h
  obtain ⟨gs, hgs, h⟩ := except_bind_ok h
  refine ⟨bv, bs, gs, hbv, hbs, hgs, ?_⟩
  obtain ⟨h1, h2⟩ := groupsLoop_ok bs [] gs hgs
  have hlen : (bs.filterMap extractF).length = bs.length := extract_length bs h2
  have hsz : sizesOf gs = bs.length := by
    rw [h1, sizesOf_pureGroups, hlen]
    simp [sizesOf]
  rw [hsz]
  exact pyLen_of_iterate bv bs hbs

/-- The Dataset of the C10 witness: two buyers, nothing else. -/
def c10data : PyVal :=
  .dict [("buyers", .list [.dict [("approval_status", .str "active")], .dict []])]

/-- The summary rendered for the C10 witness Dataset. -/
def c10s : String :=
  (trySummarize c10data).toOption.getD ""

/-- C10 witness: the two-buyer Dataset summarizes successfully and the
client total matches the bucket sum. -/
theorem total_clients_equals_bucket_sum_witness :
    trySummarize c10data = .ok c10s ∧
    (∃ bv bs gs,
      pyGetD c10data "buyers" (.list []) = .ok bv ∧
      pyIterate bv = .ok bs ∧
      statusGroupsE bs = .ok gs ∧
      pyLen bv = .ok (sizesOf gs)) :=
  ⟨rfl, total_clients_equals_bucket_sum c10data c10s rfl⟩
